import Mathlib

/-!
# ZZLocalize: the extraction-and-merge engine of `Tool/localize.go`

A shallow embedding of `src/Tool/localize.go` and theorems about it.

* Go strings are Lean `String`s; text is processed as its list of characters.
  Positions are counted in characters.  The program uses positions only to
  slice the very text they were computed from, so the unit is immaterial.
* The global variables of the program are the fields of `State`.
* A run-time panic (slice or index out of range) is the result `none`.
* `regexp` is modelled by a backtracking matcher: the Go documentation defines
  the match returned as the leftmost one, and among those the one a
  backtracking search finds first.
-/

namespace ZZLocalize

/-! ## The `regexp` package -/

/-- Character classes used by the three patterns of the program.
`space` is `\s`, `word` is `\w`, `notNewline` is `[^\r\n]`, and `any` is `.`
under the flag `s`. -/
inductive CharClass where
  | space
  | word
  | notNewline
  | any
  deriving DecidableEq, Repr

/-- Membership of a character in a class. -/
def CharClass.test : CharClass → Char → Bool
  | .space, c => c == ' ' || c == '\t' || c == '\n' || c == '\x0c' || c == '\r'
  | .word, c => c.isAlphanum || c == '_'
  | .notNewline, c => !(c == '\r' || c == '\n')
  | .any, _ => true

/-- Abstract syntax of the regular expressions the program compiles.
`eol` is `$` under the flag `m`; `star` is the greedy `*`, `lazyStar` is `*?`;
`group n` is the `n`-th capturing group. -/
inductive Regex where
  | eps
  | lit (c : Char)
  | cls (k : CharClass)
  | eol
  | seq (r s : Regex)
  | alt (r s : Regex)
  | star (r : Regex)
  | lazyStar (r : Regex)
  | group (n : Nat) (r : Regex)
  deriving Repr

/-- Number of capturing groups of an expression (the largest group number). -/
def Regex.numCap : Regex → Nat
  | .eps => 0
  | .lit _ => 0
  | .cls _ => 0
  | .eol => 0
  | .seq r s => max r.numCap s.numCap
  | .alt r s => max r.numCap s.numCap
  | .star r => r.numCap
  | .lazyStar r => r.numCap
  | .group n r => max n r.numCap

/-- Matcher state: the position, the text that remains, and the groups closed
so far as triples `(group, start, end)`, the most recent first. -/
structure MState where
  pos : Nat
  rest : List Char
  caps : List (Nat × Nat × Nat)
  deriving Repr, DecidableEq

/-- Continuation of a match. -/
abbrev Cont := MState → Option MState

/-- Iteration of a starred body.  The greedy star prefers one more iteration,
the lazy star prefers to stop.  Every starred sub-expression of the three
patterns consumes at least one character per iteration, so the remaining
length bounds the number of iterations and the bound is never what ends
the loop. -/
def starLoop (greedy : Bool) (body : MState → Cont → Option MState) :
    Nat → MState → Cont → Option MState
  | 0, s, k => k s
  | fuel + 1, s, k =>
    if greedy then
      match body s (fun s' => if s.pos < s'.pos then starLoop greedy body fuel s' k else none) with
      | some r => some r
      | none => k s
    else
      match k s with
      | some r => some r
      | none => body s (fun s' => if s.pos < s'.pos then starLoop greedy body fuel s' k else none)

/-- Backtracking match of an expression at the current position: the first
alternative that lets the continuation succeed wins. -/
def matchRe : Regex → MState → Cont → Option MState
  | .eps, s, k => k s
  | .lit c, s, k =>
    match s.rest with
    | x :: xs => if x = c then k ⟨s.pos + 1, xs, s.caps⟩ else none
    | [] => none
  | .cls cl, s, k =>
    match s.rest with
    | x :: xs => if cl.test x then k ⟨s.pos + 1, xs, s.caps⟩ else none
    | [] => none
  | .eol, s, k =>
    match s.rest with
    | [] => k s
    | x :: _ => if x = '\n' then k s else none
  | .seq r₁ r₂, s, k => matchRe r₁ s (fun s' => matchRe r₂ s' k)
  | .alt r₁ r₂, s, k =>
    match matchRe r₁ s k with
    | some r => some r
    | none => matchRe r₂ s k
  | .star r, s, k => starLoop true (matchRe r) s.rest.length s k
  | .lazyStar r, s, k => starLoop false (matchRe r) s.rest.length s k
  | .group n r, s, k =>
    matchRe r s (fun s' => k ⟨s'.pos, s'.rest, (n, s.pos, s'.pos) :: s'.caps⟩)

/-- Leftmost match at or after a position: its start and its final state. -/
def search (re : Regex) : Nat → List Char → Option (Nat × MState)
  | pos, [] =>
    match matchRe re ⟨pos, [], []⟩ some with
    | some e => some (pos, e)
    | none => none
  | pos, c :: cs =>
    match matchRe re ⟨pos, c :: cs, []⟩ some with
    | some e => some (pos, e)
    | none => search re (pos + 1) cs

/-- Start and end of a group in a finished match, `-1` and `-1` when the
group took no part in it. -/
def groupIndices (caps : List (Nat × Nat × Nat)) (g : Nat) : List Int :=
  match caps.find? (fun c => c.1 == g) with
  | some c => [(c.2.1 : Int), (c.2.2 : Int)]
  | none => [-1, -1]

/-- The index slice of one match: start and end of the whole match, then of
every group. -/
def matchIndices (numCap start : Nat) (e : MState) : List Int :=
  [(start : Int), (e.pos : Int)] ++
    (List.range numCap).flatMap (fun g => groupIndices e.caps (g + 1))

/-- The loop of `Regexp.allMatches`: successive non-overlapping matches.  After
an empty match the search moves one character forward, and an empty match
right after the previous match is not delivered.  Every round moves the
position forward, so the rounds are at most the length of the text plus
one, which is the bound `findAllStringSubmatchIndex` passes. -/
def allMatches (re : Regex) : Nat → Nat → List Char → Option Nat → List (List Int)
  | 0, _, _, _ => []
  | fuel + 1, pos, rest, prevMatchEnd =>
    match search re pos rest with
    | none => []
    | some (start, e) =>
      if e.pos = pos then
        let accept := !(decide (some start = prevMatchEnd))
        let here := if accept then [matchIndices re.numCap start e] else []
        match rest with
        | [] => here
        | _ :: cs => here ++ allMatches re fuel (pos + 1) cs (some e.pos)
      else
        matchIndices re.numCap start e :: allMatches re fuel e.pos e.rest (some e.pos)

/-- Model of `FindAllStringSubmatchIndex(s, -1)`. -/
def findAllStringSubmatchIndex (re : Regex) (s : String) : List (List Int) :=
  allMatches re (s.data.length + 1) 0 s.data none

/-- The Go slice expression `s[lo:hi]` on a text, for `lo ≤ hi ≤ len(s)`. -/
def slice (s : List Char) (lo hi : Nat) : List Char :=
  (s.take hi).drop lo

/-- Texts of the groups of one match, the empty string for a group that took
no part. -/
def submatchStrings (s : List Char) : List Int → List String
  | lo :: hi :: more =>
    (if 0 ≤ lo then String.mk (slice s lo.toNat hi.toNat) else "") :: submatchStrings s more
  | _ => []

/-- Model of `FindAllStringSubmatch(s, -1)`. -/
def findAllStringSubmatch (re : Regex) (s : String) : List (List String) :=
  (findAllStringSubmatchIndex re s).map (submatchStrings s.data)

/-- The expression matching a literal text. -/
def lits (cs : List Char) : Regex :=
  cs.foldr (fun c r => .seq (.lit c) r) .eps

/-- The sub-expression `\s*`. -/
def spaces : Regex := .star (.cls .space)

/-- The pattern of `compileLocalizeRegexp`:
`(?ms)NAME\s*\(\s*@"(.*?)"\s*(?:,\s*[\w]*|@"(.*?)"\s*)*\s*\)`.
The function name is spliced into the pattern text; it is taken literally
here, which is what the pattern means for a name made of letters, digits and
underscores. -/
def compileLocalizeRegexp (localizeFunctionFlag : String) : Regex :=
  .seq (lits localizeFunctionFlag.data) <|
  .seq spaces <| .seq (.lit '(') <| .seq spaces <|
  .seq (.lit '@') <| .seq (.lit '"') <|
  .seq (.group 1 (.lazyStar (.cls .any))) <|
  .seq (.lit '"') <| .seq spaces <|
  .seq (.star (.alt
      (.seq (.lit ',') (.seq spaces (.star (.cls .word))))
      (.seq (.lit '@') (.seq (.lit '"')
        (.seq (.group 2 (.lazyStar (.cls .any))) (.seq (.lit '"') spaces)))))) <|
  .seq spaces (.lit ')')

/-- The pattern of `compileStripCommentsRegexp`:
`(?ms)(\".*?\"|\'.*?\')|(/\*.*?\*/|//[^\r\n]*$)`. -/
def stripCommentsRegexp : Regex :=
  .alt
    (.group 1 (.alt
      (.seq (.lit '"') (.seq (.lazyStar (.cls .any)) (.lit '"')))
      (.seq (.lit '\'') (.seq (.lazyStar (.cls .any)) (.lit '\'')))))
    (.group 2 (.alt
      (.seq (.lit '/') (.seq (.lit '*')
        (.seq (.lazyStar (.cls .any)) (.seq (.lit '*') (.lit '/')))))
      (.seq (.lit '/') (.seq (.lit '/') (.seq (.star (.cls .notNewline)) .eol)))))

/-- The pattern of `compileStringsRegexp`:
`(?ms)\s*\"(.*?)\"\s*=\s*\"(.*?)\"\s*;`. -/
def stringsRegexp : Regex :=
  .seq spaces <| .seq (.lit '"') <| .seq (.group 1 (.lazyStar (.cls .any))) <|
  .seq (.lit '"') <| .seq spaces <| .seq (.lit '=') <| .seq spaces <|
  .seq (.lit '"') <| .seq (.group 2 (.lazyStar (.cls .any))) <|
  .seq (.lit '"') <| .seq spaces (.lit ';')

/-! ## Library functions -/

/-- Model of `strings.Replace(s, old, new, -1)` for a non-empty `old`: the
occurrences are replaced from left to right without overlap.  The counter is
the number of characters of a replaced occurrence still to be skipped. -/
def stringsReplaceFrom (old new : List Char) : Nat → List Char → List Char
  | _, [] => []
  | skip + 1, _ :: cs => stringsReplaceFrom old new skip cs
  | 0, c :: cs =>
    if old.isPrefixOf (c :: cs) then new ++ stringsReplaceFrom old new (old.length - 1) cs
    else c :: stringsReplaceFrom old new 0 cs

/-- Model of `strings.Replace(s, old, new, -1)`. -/
def stringsReplace (s old new : String) : String :=
  String.mk (stringsReplaceFrom old.data new.data 0 s.data)

/-- Model of `strings.HasPrefix`. -/
def stringsHasPrefix (s pre : String) : Bool :=
  pre.data.isPrefixOf s.data

/-- Scan of `filepath.Ext` from the end of the name: the reversed name is
walked up to the first dot, which closes the extension. -/
def extFrom : List Char → List Char → List Char
  | [], _ => []
  | c :: cs, acc => if c = '.' then c :: acc else extFrom cs (c :: acc)

/-- Model of `filepath.Ext` on a base name (a name without path separator):
the suffix beginning at the final dot, empty if there is no dot. -/
def filepathExt (name : String) : String :=
  String.mk (extFrom name.data.reverse [])

/-- Model of `sort.Strings`: the ascending arrangement of the strings, by the
lexicographic order of their characters (the order of the UTF-8 bytes, which
Go compares, is the order of the code points).  The keys of a map are
distinct, so the sorted list does not depend on the sorting algorithm. -/
def sortStrings (keys : List String) : List String :=
  keys.insertionSort (fun a b => a.data ≤ b.data)

/-! ## The program state -/

/-- The Go type `map[string][]string`. -/
abbrev Table := AList (fun _ : String => List String)

/-- The reserved key of the row that holds the language list. -/
def languageKey : String := "language"

/-- The global variables of the program that the engine reads and writes.
`localizeFunctionFlag` stands for the compiled `localizeRegexp`. -/
structure State where
  localization : Table
  languages : List String
  languagesCount : Nat
  stringsWalkCurrentLanguageIndex : Int
  localizeFunctionFlag : String

/-- The state at the start of `main`, after `initLocalization`: the globals
have their zero values and the flag its default. -/
def initState : State :=
  { localization := ∅, languages := [], languagesCount := 0,
    stringsWalkCurrentLanguageIndex := 0, localizeFunctionFlag := "Localize" }

/-- Model of `make([]string, n)`: `n` empty strings. -/
def makeRow (n : Nat) : List String := List.replicate n ""

/-! ## Scanning source files -/

/-- Model of `processSourceFileKey`. -/
def processSourceFileKey (st : State) (key : String) : State :=
  match st.localization.lookup key with
  | some _ => st
  | none => { st with localization := st.localization.insert key (makeRow st.languagesCount) }

/-- The loop of `processSourceFileContents` over the matches. -/
def processSourceFileMatches (st : State) (ms : List (List String)) : State :=
  ms.foldl
    (fun s m =>
      if 1 < m.length then processSourceFileKey s (m.getD 1 "") else s)
    st

/-- Model of `processSourceFileContents`. -/
def processSourceFileContents (st : State) (fileContents : String) : State :=
  processSourceFileMatches st
    (findAllStringSubmatch (compileLocalizeRegexp st.localizeFunctionFlag) fileContents)

/-- First loop of `stripComments`: the start and end of the comment group
(group 2) of every match in which it took part. -/
def indicesToRemove (ms : List (List Int)) : List (Nat × Nat) :=
  ms.filterMap (fun matchIndices =>
    if 2 + 1 ≤ matchIndices.length / 2 then
      if matchIndices.getD 4 (-1) ≠ -1 ∧ matchIndices.getD 5 (-1) ≠ -1 then
        some ((matchIndices.getD 4 (-1)).toNat, (matchIndices.getD 5 (-1)).toNat)
      else none
    else none)

/-- Second loop of `stripComments`: the text between the spans to remove.
The spans come from successive matches, so each starts at or after `index`. -/
def copyKept (fileContents : List Char) : Nat → List (Nat × Nat) → List Char
  | index, [] => slice fileContents index fileContents.length
  | index, (startingIndex, endingIndex) :: more =>
    slice fileContents index startingIndex ++ copyKept fileContents endingIndex more

/-- Model of `stripComments`. -/
def stripComments (fileContents : String) : String :=
  String.mk (copyKept fileContents.data 0
    (indicesToRemove (findAllStringSubmatchIndex stripCommentsRegexp fileContents)))

/-- Model of `processSourceFile`; the argument is the result of reading the
file, `none` when `ioutil.ReadFile` fails. -/
def processSourceFile (st : State) (file : Option String) : State :=
  match file with
  | none => st
  | some fileContents => processSourceFileContents st (stripComments fileContents)

/-! ## Converting `.strings` files -/

/-- Model of `unescapeLocalizedString`. -/
def unescapeLocalizedString (s : String) : String :=
  stringsReplace (stringsReplace s "\\\"" "\"") "\\'" "'"

/-- Model of `processStringsFileKeyValue`.  The assignment to the element at
`stringsWalkCurrentLanguageIndex` panics when the index is negative or not
below the length of the row. -/
def processStringsFileKeyValue (st : State) (key value : String) : Option State :=
  let localization :=
    match st.localization.lookup key with
    | some _ => st.localization
    | none => st.localization.insert key (makeRow st.languagesCount)
  let row := (localization.lookup key).getD []
  let index := st.stringsWalkCurrentLanguageIndex
  if 0 ≤ index ∧ index.toNat < row.length then
    some { st with localization := localization.insert key (row.set index.toNat value) }
  else none

/-- Key and value texts of one match of `stringsRegexp`, before unescaping:
the texts of groups 1 and 2, empty for a group with a `-1` index. -/
def keyValueOfMatch (fileContents : List Char) (matchIndices : List Int) : String × String :=
  let key :=
    if matchIndices.getD 2 (-1) ≠ -1 ∧ matchIndices.getD 3 (-1) ≠ -1 then
      String.mk (slice fileContents (matchIndices.getD 2 (-1)).toNat (matchIndices.getD 3 (-1)).toNat)
    else ""
  let value :=
    if matchIndices.getD 4 (-1) ≠ -1 ∧ matchIndices.getD 5 (-1) ≠ -1 then
      String.mk (slice fileContents (matchIndices.getD 4 (-1)).toNat (matchIndices.getD 5 (-1)).toNat)
    else ""
  (key, value)

/-- The loop of `processStringFileContents` over the matches, with the running
`translationsCount`. -/
def processStringFileMatches (fileContents : List Char) :
    List (List Int) → State → Nat → Option (State × Nat)
  | [], st, translationsCount => some (st, translationsCount)
  | matchIndices :: more, st, translationsCount =>
    if 2 + 1 ≤ matchIndices.length / 2 then
      let key := unescapeLocalizedString (keyValueOfMatch fileContents matchIndices).1
      let value := unescapeLocalizedString (keyValueOfMatch fileContents matchIndices).2
      if 0 < key.length ∧ 0 < value.length then
        match processStringsFileKeyValue st key value with
        | some st' => processStringFileMatches fileContents more st' (translationsCount + 1)
        | none => none
      else processStringFileMatches fileContents more st translationsCount
    else processStringFileMatches fileContents more st translationsCount

/-- Model of `processStringFileContents`: the final state and the returned
count, `none` when an assignment panics. -/
def processStringFileContents (st : State) (fileContents : String) : Option (State × Nat) :=
  processStringFileMatches fileContents.data
    (findAllStringSubmatchIndex stringsRegexp fileContents) st 0

/-- Model of `processStringFile`; the argument is the result of reading the
file, `none` when `ioutil.ReadFile` fails. -/
def processStringFile (st : State) (file : Option String) : Option State :=
  match file with
  | none => some st
  | some fileContents =>
    (processStringFileContents st (stripComments fileContents)).map Prod.fst

/-- What `filepath.Walk` hands to a walk function: the base name of the entry
and whether it is a directory. -/
structure FileInfo where
  name : String
  isDir : Bool

/-- The loop of `stringsWalkFunc` over the languages: the index of the first
language that is a prefix of the directory name, `-1` if there is none. -/
def findLanguageIndex (name : String) : List String → Nat → Int
  | [], _ => -1
  | language :: more, index =>
    if stringsHasPrefix name language then (index : Int)
    else findLanguageIndex name more (index + 1)

/-- Model of `stringsWalkFunc`; `file` is the result of reading the entry when
it is a file. -/
def stringsWalkFunc (st : State) (info : FileInfo) (file : Option String) : Option State :=
  if info.isDir then
    if filepathExt info.name ≠ ".lproj" then some st
    else
      some { st with
        stringsWalkCurrentLanguageIndex := findLanguageIndex info.name st.languages 0 }
  else
    if filepathExt info.name ≠ ".strings" then some st
    else if st.stringsWalkCurrentLanguageIndex = -1 then some st
    else processStringFile st file

/-- The language that is put first when it is found among the directories. -/
def defaultLanguage : String := "en"

/-- Model of `strings.TrimSuffix`. -/
def stringsTrimSuffix (s suffix : String) : String :=
  if suffix.data.isSuffixOf s.data then
    String.mk (s.data.take (s.data.length - suffix.data.length))
  else s

/-- Model of `stringsLanguagesWalkFunc`: a `.lproj` directory adds its name
without the extension to the languages, unless it is there already; the
default language goes to the front. -/
def stringsLanguagesWalkFunc (st : State) (info : FileInfo) : State :=
  if !info.isDir then st
  else if filepathExt info.name ≠ ".lproj" then st
  else
    let language := stringsTrimSuffix info.name (filepathExt info.name)
    if st.languages.contains language then st
    else if language = defaultLanguage then { st with languages := language :: st.languages }
    else { st with languages := st.languages ++ [language] }

/-- Model of `findAllStringsLanguages`, a function no other function calls:
the walk with `stringsLanguagesWalkFunc`. -/
def findAllStringsLanguages (st : State) (entries : List FileInfo) : State :=
  entries.foldl stringsLanguagesWalkFunc st

/-! ## Loading, checking and saving the table -/

/-- One result of `csv.Reader.Read` before the end of the file: a record or an
error (such as a wrong number of fields). -/
inductive ReadResult where
  | record (values : List String)
  | error
  deriving DecidableEq, Repr

/-- The reading loop of `loadLocalization`: every record with at least one
cell binds its first cell to the remaining cells.  The flag is `false` when
the loop was left by the `return` after a read error. -/
def loadRecords : Table → List ReadResult → Table × Bool
  | localization, [] => (localization, true)
  | localization, .error :: _ => (localization, false)
  | localization, .record values :: more =>
    match values with
    | [] => loadRecords localization more
    | key :: cells => loadRecords (localization.insert key cells) more

/-- Model of `loadLocalization`.  The argument is the sequence of results the
reader gives for the file, `none` when the file cannot be opened (an opened
file is taken to answer `os.Stat`).  The slice expression
`languagesValues[1:]` panics on an empty row. -/
def loadLocalization (st : State) (file : Option (List ReadResult)) : Option State :=
  match file with
  | none => some st
  | some reads =>
    match loadRecords st.localization reads with
    | (localization, false) => some { st with localization := localization }
    | (localization, true) =>
      match localization.lookup languageKey with
      | none => some { st with localization := localization }
      | some [] => none
      | some (_ :: languages) =>
        some { st with
          localization := localization,
          languages := languages,
          languagesCount := languages.length }

/-- Model of `localizationKeys`: the keys of the table, in the order the map
iteration happens to give. -/
def localizationKeys (st : State) : List String :=
  st.localization.keys

/-- The lines `checkLocalization` writes to the error stream.  `line` is the
printed row number, `translations` and `languagesCount` are the two numbers
printed in brackets. -/
inductive Diagnostic where
  | moreTranslations (line : Nat) (key : String) (translations languagesCount : Nat)
  | lessTranslations (line : Nat) (key : String) (translations languagesCount : Nat)
  | missingTranslations (line : Nat) (key : String) (missingLanguages : List String)
  deriving DecidableEq, Repr

/-- The key a diagnostic is about. -/
def Diagnostic.key : Diagnostic → String
  | .moreTranslations _ key _ _ => key
  | .lessTranslations _ key _ _ => key
  | .missingTranslations _ key _ => key

/-- Whether a diagnostic is about the number of translations. -/
def Diagnostic.isCount : Diagnostic → Bool
  | .moreTranslations _ _ _ _ => true
  | .lessTranslations _ _ _ _ => true
  | .missingTranslations _ _ _ => false

/-- The inner loop of `checkLocalization`: the languages whose index is within
the row and whose cell is empty. -/
def missingTranslationsFrom (languageValues : List String) : Nat → List String → List String
  | _, [] => []
  | index, language :: more =>
    if index < languageValues.length ∧ languageValues[index]? = some "" then
      language :: missingTranslationsFrom languageValues (index + 1) more
    else missingTranslationsFrom languageValues (index + 1) more

/-- The body of the loop of `checkLocalization` for the key at position `i`. -/
def checkKey (st : State) (i : Nat) (key : String) : List Diagnostic :=
  let languageValues := (st.localization.lookup key).getD []
  let count :=
    if st.languagesCount + 1 < languageValues.length then
      [Diagnostic.moreTranslations (i + 1) key languageValues.length st.languagesCount]
    else if languageValues.length < st.languagesCount + 1 then
      [Diagnostic.lessTranslations (i + 1) key languageValues.length st.languagesCount]
    else []
  let missingTranslations := missingTranslationsFrom languageValues 0 st.languages
  let missing :=
    if 0 < missingTranslations.length then
      [Diagnostic.missingTranslations (i + 1) key missingTranslations]
    else []
  count ++ missing

/-- The loop of `checkLocalization` from position `i` on. -/
def checkKeysFrom (st : State) : Nat → List String → List Diagnostic
  | _, [] => []
  | i, key :: more => checkKey st i key ++ checkKeysFrom st (i + 1) more

/-- Model of `checkLocalization`: the diagnostics in the order they are
written. -/
def checkLocalization (st : State) (keys : List String) : List Diagnostic :=
  checkKeysFrom st 0 keys

/-- Model of `sortedKeys`: the key list and the state it leaves. -/
def sortedKeys (st : State) : List String × State :=
  let languageValues := st.localization.lookup languageKey
  let st₁ : State := { st with localization := st.localization.erase languageKey }
  let keys := sortStrings (localizationKeys st₁)
  let languageValues :=
    match languageValues with
    | none => st.languages
    | some values => values
  (languageKey :: keys,
    { st₁ with localization := st₁.localization.insert languageKey languageValues })

/-- Model of `saveLocalization`: the records handed to the CSV writer, in the
order they are written (the file could be created). -/
def saveLocalization (st : State) (keys : List String) : List (List String) :=
  keys.map (fun key => key :: (st.localization.lookup key).getD [])

/-! ## The whole run -/

/-- Model of `processSources`: the walk hands over, in order, the files that
pass the extension and modification-time tests of `sourceWalkFunc`; each is
given by the result of reading it. -/
def processSources (st : State) (sources : List (Option String)) : State :=
  sources.foldl processSourceFile st

/-- Model of `processStringsFiles`: the entries of the walk in order, each with
the result of reading it when it is a file. -/
def processStringsFiles : State → List (FileInfo × Option String) → Option State
  | st, [] => some st
  | st, entry :: more =>
    match stringsWalkFunc st entry.1 entry.2 with
    | some st' => processStringsFiles st' more
    | none => none

/-- What a run leaves behind: the diagnostics written to the error stream and
the rows written to the localization file. -/
structure Output where
  diagnostics : List Diagnostic
  rows : List (List String)

/-- The last three statements of `main`: `sortedKeys`, `checkLocalization` and
`saveLocalization`. -/
def checkAndSave (st : State) : Output :=
  { diagnostics := checkLocalization (sortedKeys st).2 (sortedKeys st).1,
    rows := saveLocalization (sortedKeys st).2 (sortedKeys st).1 }

/-- Model of `main` after `parseArguments`, with the function name at its
default: `persisted` is what the reader gives for the localization file
(`none` if there is no such file), `sources` are the source files to scan,
`entries` the walk of the conversion mode.  The result is `none` when the run
is aborted by a panic. -/
def main (convertStringsModeFlag : Bool) (persisted : Option (List ReadResult))
    (sources : List (Option String)) (entries : List (FileInfo × Option String)) :
    Option Output :=
  if !convertStringsModeFlag then
    match loadLocalization initState persisted with
    | some st => some (checkAndSave (processSources st sources))
    | none => none
  else
    match processStringsFiles initState entries with
    | some st => some (checkAndSave st)
    | none => none

/-- Reading back, with `csv.NewReader`, rows that `csv.Writer` wrote.  The
reader is used with `FieldsPerRecord = 0`: the number of fields of the first
record is required of every record, and a record with another number of
fields is answered with an error.  The cells themselves are taken to come
back as they were written. -/
def readRowsFrom : Option Nat → List (List String) → List ReadResult
  | _, [] => []
  | none, row :: more => .record row :: readRowsFrom (some row.length) more
  | some n, row :: more =>
    (if row.length = n then ReadResult.record row else ReadResult.error) ::
      readRowsFrom (some n) more

/-- The results of reading a saved file from its first row on. -/
def readRows (rows : List (List String)) : List ReadResult :=
  readRowsFrom none rows

/-- The source files of a first run: one file with one call. -/
def firstRunSources : List (Option String) :=
  [some "x = Localize(@\"hello\");\n"]

/-- The rows the first run saves. -/
def firstRunRows : List (List String) :=
  [["language"], ["hello"]]

/-- The rows saved by the run of the merge scenario. -/
def mergeRows : List (List String) :=
  [["language", "en", "ru"], ["goodbye", ""], ["greeting", "Hello", "Привет"]]

/-! ## Scenario data -/

/-- The persisted records of the merge scenario. -/
def mergeRecords : List ReadResult :=
  [.record ["language", "en", "ru"], .record ["greeting", "Hello", "Привет"]]

/-- The source text of the merge scenario: it contains only the two calls. -/
def mergeSource : String :=
  "a = Localize(@\"greeting\");\nb = Localize(@\"goodbye\");\n"

/-- The state of the merge scenario after loading and scanning. -/
def mergeScanned : Option State :=
  (loadLocalization initState (some mergeRecords)).map
    (fun st => processSourceFileContents st mergeSource)

/-- A state with the table of the merge scenario and both languages known. -/
def twoLanguageState : State :=
  { localization :=
      ((∅ : Table).insert "language" ["en", "ru"]).insert "greeting" ["Hello", "Привет"],
    languages := ["en", "ru"], languagesCount := 2,
    stringsWalkCurrentLanguageIndex := 0, localizeFunctionFlag := "Localize" }

/-- A source text whose only call stands in a `//` comment that follows a
string literal with an escaped quote. -/
def escapedQuoteSource : String :=
  "NSString *s = @\"a\\\"b\"; // Localize(@\"k\")\n"

/-- The same text without the escaped quote. -/
def plainQuoteSource : String :=
  "NSString *s = @\"ab\"; // Localize(@\"k\")\n"

/-- A source text whose only call stands in a `//` comment on a line that
ends with carriage return and line feed. -/
def crlfSource : String :=
  "// Localize(@\"k\")\r\n"

/-- The source text of the extraction scenario. -/
def extractionSource : String :=
  "NSString *a = Localize(@\"greeting\");\nNSString *b = Localize(@\"farewell\", @\"ignored-arg\");\n"

/-- The resource text of the escape scenario. -/
def titleEntry : String :=
  "\"title\" = \"Hi \\\"there\\\"\";"

/-- A state of the conversion mode with the one language `en`, whose directory
is being walked. -/
def englishState : State :=
  { localization := ∅, languages := ["en"], languagesCount := 1,
    stringsWalkCurrentLanguageIndex := 0, localizeFunctionFlag := "Localize" }

/-- The pairs of a resource text that are accepted, in the words of the
specification: the matched `"key" = "value";` pairs, both sides unescaped,
whose key and value are both non-empty. -/
def acceptedPairs (fileContents : String) : List (String × String) :=
  ((findAllStringSubmatchIndex stringsRegexp fileContents).map (fun m =>
    (unescapeLocalizedString (keyValueOfMatch fileContents.data m).1,
     unescapeLocalizedString (keyValueOfMatch fileContents.data m).2))).filter
    (fun kv => decide (kv.1 ≠ "" ∧ kv.2 ≠ ""))

/-- Writing a list of pairs to the table, one after the other, with
`processStringsFileKeyValue`. -/
def writePairs : State → List (String × String) → Option State
  | st, [] => some st
  | st, kv :: more =>
    match processStringsFileKeyValue st kv.1 kv.2 with
    | some st' => writePairs st' more
    | none => none

/-- A state of the conversion mode in which the language `en` is a prefix of
the language `en-GB`. -/
def prefixLanguagesState : State :=
  { localization := ∅, languages := ["en", "en-GB"], languagesCount := 2,
    stringsWalkCurrentLanguageIndex := 0, localizeFunctionFlag := "Localize" }

/-- A state of the conversion mode with the languages `en` and `ru`. -/
def twoLanguageWalkState : State :=
  { localization := ∅, languages := ["en", "ru"], languagesCount := 2,
    stringsWalkCurrentLanguageIndex := 0, localizeFunctionFlag := "Localize" }

/-- The state of a first run (no persisted file) after scanning one call. -/
def firstRunScanned : State :=
  processSourceFileContents initState "x = Localize(@\"hello\");\n"

/-- The state after loading a file whose language row has an empty first
cell. -/
def emptyNameLoaded : Option State :=
  loadLocalization initState (some [.record ["language", "", "ru"]])

/-! ## General lemmas -/

theorem lookup_processSourceFileKey_of_some (st : State) (key k : String) (row : List String)
    (h : st.localization.lookup k = some row) :
    (processSourceFileKey st key).localization.lookup k = some row := by
  unfold processSourceFileKey
  cases hk : st.localization.lookup key with
  | some r => simpa using h
  | none =>
    have hne : k ≠ key := by
      intro e
      rw [e, hk] at h
      exact Option.noConfusion h
    simp only [AList.lookup_insert_ne hne]
    exact h

theorem lookup_processSourceFileMatches_of_some (ms : List (List String)) :
    ∀ (st : State) (k : String) (row : List String),
      st.localization.lookup k = some row →
      (processSourceFileMatches st ms).localization.lookup k = some row := by
  induction ms with
  | nil => intro st k row h; exact h
  | cons m more ih =>
    intro st k row h
    unfold processSourceFileMatches
    rw [List.foldl_cons]
    apply ih
    split
    · exact lookup_processSourceFileKey_of_some st _ k row h
    · exact h

theorem dataLE_total (a b : String) : a.data ≤ b.data ∨ b.data ≤ a.data :=
  le_total _ _

theorem dataLE_trans (a b c : String) (h₁ : a.data ≤ b.data) (h₂ : b.data ≤ c.data) :
    a.data ≤ c.data :=
  le_trans h₁ h₂

theorem sortStrings_perm (keys : List String) : (sortStrings keys).Perm keys :=
  List.perm_insertionSort _ keys

theorem sortStrings_sorted (keys : List String) :
    (sortStrings keys).Sorted (fun a b => a.data ≤ b.data) := by
  haveI : IsTotal String (fun a b => a.data ≤ b.data) := ⟨dataLE_total⟩
  haveI : IsTrans String (fun a b => a.data ≤ b.data) := ⟨dataLE_trans⟩
  exact List.sorted_insertionSort _ keys

theorem sortStrings_strict (keys : List String) (h : keys.Nodup) :
    (sortStrings keys).Sorted (· < ·) := by
  have hs := sortStrings_sorted keys
  have hn : (sortStrings keys).Nodup := (sortStrings_perm keys).nodup_iff.mpr h
  have hboth := List.Pairwise.and hs hn
  refine List.Pairwise.imp ?_ hboth
  intro a b hab
  rw [String.lt_iff_toList_lt]
  exact lt_of_le_of_ne hab.1 (fun e => hab.2 (String.ext e))

theorem processSourceFileKey_of_none (st : State) (key : String)
    (h : st.localization.lookup key = none) :
    processSourceFileKey st key =
      { st with localization := st.localization.insert key (List.replicate st.languagesCount "") } := by
  simp [processSourceFileKey, h, makeRow]

theorem groupIndices_length (caps : List (Nat × Nat × Nat)) (g : Nat) :
    (groupIndices caps g).length = 2 := by
  unfold groupIndices
  split <;> rfl

theorem matchIndices_length (numCap start : Nat) (e : MState) :
    (matchIndices numCap start e).length = 2 + 2 * numCap := by
  unfold matchIndices
  induction numCap with
  | zero => simp
  | succ n ih =>
    simp only [List.length_append, List.range_succ, List.flatMap_append, List.flatMap_cons,
      List.flatMap_nil, List.append_nil, groupIndices_length] at ih ⊢
    omega

theorem allMatches_length (re : Regex) :
    ∀ (fuel pos : Nat) (rest : List Char) (prev : Option Nat) (m : List Int),
      m ∈ allMatches re fuel pos rest prev → m.length = 2 + 2 * re.numCap := by
  intro fuel
  induction fuel with
  | zero => intro pos rest prev m h; simp [allMatches] at h
  | succ n ih =>
    intro pos rest prev m h
    unfold allMatches at h
    split at h
    · simp at h
    · rename_i start e _
      split at h
      · cases rest with
        | nil =>
          simp only at h
          split at h
          · rw [List.mem_singleton] at h
            rw [h]; exact matchIndices_length _ _ _
          · simp at h
        | cons c cs =>
          simp only [List.mem_append] at h
          rcases h with h | h
          · split at h
            · rw [List.mem_singleton] at h
              rw [h]; exact matchIndices_length _ _ _
            · simp at h
          · exact ih _ _ _ _ h
      · rw [List.mem_cons] at h
        rcases h with h | h
        · rw [h]; exact matchIndices_length _ _ _
        · exact ih _ _ _ _ h

theorem string_length_pos_iff (s : String) : 0 < s.length ↔ s ≠ "" := by
  constructor
  · intro h e
    rw [e] at h
    exact Nat.lt_irrefl 0 h
  · intro h
    cases hs : s.data with
    | nil => exact absurd (String.ext hs) h
    | cons c cs =>
      show 0 < s.data.length
      rw [hs]
      exact Nat.succ_pos _

theorem processStringFileMatches_eq (fileContents : List Char) :
    ∀ (ms : List (List Int)) (st : State) (count : Nat),
      (∀ m ∈ ms, m.length = 6) →
      processStringFileMatches fileContents ms st count =
        (writePairs st ((ms.map (fun m =>
          (unescapeLocalizedString (keyValueOfMatch fileContents m).1,
           unescapeLocalizedString (keyValueOfMatch fileContents m).2))).filter
            (fun kv => decide (kv.1 ≠ "" ∧ kv.2 ≠ "")))).map
          (fun s => (s, count + ((ms.map (fun m =>
            (unescapeLocalizedString (keyValueOfMatch fileContents m).1,
             unescapeLocalizedString (keyValueOfMatch fileContents m).2))).filter
              (fun kv => decide (kv.1 ≠ "" ∧ kv.2 ≠ ""))).length)) := by
  intro ms
  induction ms with
  | nil => intro st count _; simp [processStringFileMatches, writePairs]
  | cons m more ih =>
    intro st count hlen
    have hm : m.length = 6 := hlen m (List.mem_cons_self _ _)
    have hmore : ∀ x ∈ more, x.length = 6 := fun x hx => hlen x (List.mem_cons_of_mem _ hx)
    unfold processStringFileMatches
    rw [if_pos (by omega)]
    simp only [List.map_cons]
    by_cases hacc : unescapeLocalizedString (keyValueOfMatch fileContents m).1 ≠ "" ∧
        unescapeLocalizedString (keyValueOfMatch fileContents m).2 ≠ ""
    · rw [if_pos ⟨(string_length_pos_iff _).mpr hacc.1, (string_length_pos_iff _).mpr hacc.2⟩]
      rw [List.filter_cons_of_pos (by simpa using hacc)]
      simp only [writePairs, List.length_cons]
      cases hw : processStringsFileKeyValue st
          (unescapeLocalizedString (keyValueOfMatch fileContents m).1)
          (unescapeLocalizedString (keyValueOfMatch fileContents m).2) with
      | none => rfl
      | some st' =>
        simp only
        rw [ih st' (count + 1) hmore]
        congr 1
        funext s
        congr 1
        omega
    · rw [if_neg (fun h => hacc ⟨(string_length_pos_iff _).mp h.1, (string_length_pos_iff _).mp h.2⟩)]
      rw [List.filter_cons_of_neg (by simpa using hacc)]
      exact ih st count hmore

theorem stringsHasPrefix_append (L suffix : String) : stringsHasPrefix (L ++ suffix) L = true := by
  unfold stringsHasPrefix
  rw [String.data_append, List.isPrefixOf_iff_prefix]
  exact List.prefix_append _ _

theorem filepathExt_lproj (L : String) : filepathExt (L ++ ".lproj") = ".lproj" := by
  unfold filepathExt
  rw [String.data_append, List.reverse_append]
  rfl

theorem checkKey_key (st : State) (i : Nat) (key : String) :
    ∀ d ∈ checkKey st i key, d.key = key := by
  intro d hd
  unfold checkKey at hd
  simp only [List.mem_append] at hd
  rcases hd with hd | hd
  · split_ifs at hd
    all_goals simp at hd
    all_goals (rw [hd]; rfl)
  · split_ifs at hd
    all_goals simp at hd
    all_goals (rw [hd]; rfl)

theorem checkKeysFrom_key (st : State) :
    ∀ (keys : List String) (i : Nat), ∀ d ∈ checkKeysFrom st i keys, d.key ∈ keys := by
  intro keys
  induction keys with
  | nil => intro i d hd; simp [checkKeysFrom] at hd
  | cons key more ih =>
    intro i d hd
    simp only [checkKeysFrom, List.mem_append] at hd
    rcases hd with hd | hd
    · rw [checkKey_key st i key d hd]
      exact List.mem_cons_self _ _
    · exact List.mem_cons_of_mem _ (ih (i + 1) d hd)

theorem checkKey_count_iff (st : State) (i : Nat) (key : String) :
    (∃ d ∈ checkKey st i key, d.isCount = true) ↔
      ((st.localization.lookup key).getD []).length ≠ st.languagesCount + 1 := by
  unfold checkKey
  simp only [List.mem_append]
  constructor
  · rintro ⟨d, hd | hd, hc⟩
    · split_ifs at hd with h₁ h₂
      · omega
      · omega
      · simp at hd
    · split_ifs at hd
      · simp at hd
        rw [hd] at hc
        simp [Diagnostic.isCount] at hc
      · simp at hd
  · intro hne
    by_cases h₁ : st.languagesCount + 1 < ((st.localization.lookup key).getD []).length
    · refine ⟨Diagnostic.moreTranslations (i + 1) key
        ((st.localization.lookup key).getD []).length st.languagesCount, Or.inl ?_, rfl⟩
      rw [if_pos h₁]
      exact List.mem_singleton_self _
    · have h₂ : ((st.localization.lookup key).getD []).length < st.languagesCount + 1 := by omega
      refine ⟨Diagnostic.lessTranslations (i + 1) key
        ((st.localization.lookup key).getD []).length st.languagesCount, Or.inl ?_, rfl⟩
      rw [if_neg h₁, if_pos h₂]
      exact List.mem_singleton_self _

theorem checkKey_missing_iff (st : State) (i : Nat) (key : String) :
    (∃ d ∈ checkKey st i key, d.isCount = false) ↔
      missingTranslationsFrom ((st.localization.lookup key).getD []) 0 st.languages ≠ [] := by
  unfold checkKey
  simp only [List.mem_append]
  constructor
  · rintro ⟨d, hd | hd, hc⟩
    · split_ifs at hd <;> simp at hd <;> rw [hd] at hc <;> simp [Diagnostic.isCount] at hc
    · split_ifs at hd with h
      · intro e
        rw [e] at h
        simp at h
      · simp at hd
  · intro hne
    have hpos : 0 < (missingTranslationsFrom ((st.localization.lookup key).getD []) 0
        st.languages).length := List.length_pos.mpr hne
    refine ⟨Diagnostic.missingTranslations (i + 1) key
      (missingTranslationsFrom ((st.localization.lookup key).getD []) 0 st.languages),
      Or.inr ?_, rfl⟩
    rw [if_pos hpos]
    exact List.mem_singleton_self _

theorem missingTranslationsFrom_ne_nil_iff (languageValues : List String) :
    ∀ (languages : List String) (index : Nat),
      missingTranslationsFrom languageValues index languages ≠ [] ↔
        ∃ j, j < languages.length ∧ languageValues[index + j]? = some "" := by
  intro languages
  induction languages with
  | nil => intro index; simp [missingTranslationsFrom]
  | cons language more ih =>
    intro index
    unfold missingTranslationsFrom
    by_cases h : index < languageValues.length ∧ languageValues[index]? = some ""
    · rw [if_pos h]
      constructor
      · intro _
        exact ⟨0, Nat.succ_pos _, h.2⟩
      · intro _
        exact List.cons_ne_nil _ _
    · rw [if_neg h, ih (index + 1)]
      constructor
      · rintro ⟨j, hj, hv⟩
        refine ⟨j + 1, Nat.succ_lt_succ hj, ?_⟩
        rw [← hv]
        congr 1
        omega
      · rintro ⟨j, hj, hv⟩
        cases j with
        | zero =>
          exfalso
          apply h
          refine ⟨?_, hv⟩
          by_contra hlt
          rw [List.getElem?_eq_none (by simpa using hlt)] at hv
          exact Option.noConfusion hv
        | succ j =>
          refine ⟨j, Nat.lt_of_succ_lt_succ hj, ?_⟩
          rw [← hv]
          congr 1
          omega

theorem sortedKeys_lookup_language (st : State) :
    (sortedKeys st).2.localization.lookup languageKey =
      some ((st.localization.lookup languageKey).getD st.languages) := by
  unfold sortedKeys
  simp only []
  rw [AList.lookup_insert]
  cases st.localization.lookup languageKey <;> rfl

/-! ## Theorems -/

/-- C1 (the code at the merge scenario): after loading `language,en,ru` and
`greeting,Hello,Привет`, scanning the two calls, and running `sortedKeys` and
`checkLocalization`, the row of `greeting` is still `Hello, Привет`, but the
row of `goodbye` is one empty cell, the diagnostics for `goodbye` are a
"less translations" line and a missing-translation line that names `ru` only,
and the rows saved are `language,en,ru`, `goodbye,` and `greeting,Hello,Привет`. -/
theorem mergeScenario_goodbye_has_one_cell :
    mergeScanned.map (fun st =>
      ((sortedKeys st).2.localization.lookup "greeting",
       (sortedKeys st).2.localization.lookup "goodbye",
       checkLocalization (sortedKeys st).2 (sortedKeys st).1,
       saveLocalization (sortedKeys st).2 (sortedKeys st).1)) =
    some (some ["Hello", "Привет"], some [""],
      [Diagnostic.lessTranslations 2 "goodbye" 1 1,
       Diagnostic.missingTranslations 2 "goodbye" ["ru"]],
      [["language", "en", "ru"], ["goodbye", ""], ["greeting", "Hello", "Привет"]]) := by
  decide

/-- C2 (the code at a table with a language row): loading a file whose only
record is `language, first, rest...` sets `languages` to `rest`, without the
first language, and `languagesCount` to the length of `rest`; the row
`language,en,ru` gives `languages = [ru]` and `languagesCount = 1`. -/
theorem loadLocalization_drops_first_language :
    (∀ (st : State) (first : String) (rest : List String),
      (loadLocalization st (some [.record (languageKey :: first :: rest)])).map
        (fun s => (s.languages, s.languagesCount)) = some (rest, rest.length)) ∧
    (loadLocalization initState (some [.record ["language", "en", "ru"]])).map
        (fun s => (s.languages, s.languagesCount)) = some (["ru"], 1) := by
  have h : ∀ (st : State) (first : String) (rest : List String),
      (loadLocalization st (some [.record (languageKey :: first :: rest)])).map
        (fun s => (s.languages, s.languagesCount)) = some (rest, rest.length) := by
    intro st first rest
    simp [loadLocalization, loadRecords, AList.lookup_insert]
  exact ⟨h, h initState "en" ["ru"]⟩

/-- C3: `processSourceFileKey` is insert-if-absent.  If the key is in the table
the state is returned unchanged.  If it is absent the new table is the old one
with the key bound to `languagesCount` empty strings, and the rows of all
other keys are unchanged.  Hence `processSourceFileContents` never changes the
row of a key that was present before the scan. -/
theorem processSourceFileKey_insert_if_absent (st : State) (key : String) :
    (∀ row, st.localization.lookup key = some row → processSourceFileKey st key = st) ∧
    (st.localization.lookup key = none →
      (processSourceFileKey st key).localization =
        st.localization.insert key (List.replicate st.languagesCount "") ∧
      (processSourceFileKey st key).localization.lookup key =
        some (List.replicate st.languagesCount "") ∧
      (List.replicate st.languagesCount "").length = st.languagesCount ∧
      (∀ k, k ≠ key →
        (processSourceFileKey st key).localization.lookup k = st.localization.lookup k)) ∧
    (∀ (fileContents k : String) (row : List String),
      st.localization.lookup k = some row →
      (processSourceFileContents st fileContents).localization.lookup k = some row) := by
  refine ⟨?_, ?_, ?_⟩
  · intro row h
    simp [processSourceFileKey, h]
  · intro h
    have e : (processSourceFileKey st key).localization =
        st.localization.insert key (List.replicate st.languagesCount "") := by
      simp [processSourceFileKey, h, makeRow]
    refine ⟨e, ?_, List.length_replicate _ _, ?_⟩
    · rw [e, AList.lookup_insert]
    · intro k hk
      rw [e, AList.lookup_insert_ne hk]
  · intro fileContents k row h
    exact lookup_processSourceFileMatches_of_some _ st k row h

/-- Witness of C3 on the table of the merge scenario with two languages:
`greeting` is present and nothing changes, `goodbye` is absent and gets two
empty cells, and a scan keeps the row of `greeting`. -/
theorem processSourceFileKey_insert_if_absent_witness :
    processSourceFileKey twoLanguageState "greeting" = twoLanguageState ∧
    (processSourceFileKey twoLanguageState "goodbye").localization.lookup "goodbye" =
      some ["", ""] ∧
    (processSourceFileKey twoLanguageState "goodbye").localization.lookup "greeting" =
      some ["Hello", "Привет"] ∧
    (processSourceFileContents twoLanguageState mergeSource).localization.lookup "greeting" =
      some ["Hello", "Привет"] :=
  ⟨(processSourceFileKey_insert_if_absent twoLanguageState "greeting").1
      ["Hello", "Привет"] (by decide),
   ((processSourceFileKey_insert_if_absent twoLanguageState "goodbye").2.1 (by decide)).2.1,
   (((processSourceFileKey_insert_if_absent twoLanguageState "goodbye").2.1
      (by decide)).2.2.2 "greeting" (by decide)).trans (by decide),
   (processSourceFileKey_insert_if_absent twoLanguageState "greeting").2.2
      mergeSource "greeting" ["Hello", "Привет"] (by decide)⟩

/-- C4: the list `sortedKeys` returns starts with the reserved key `language`;
the rest are exactly the other keys of the table, each once, in strictly
ascending string order; `saveLocalization` writes one row per key of that
list, in that order, each row being the key followed by its cells. -/
theorem sortedKeys_language_first_then_ascending (st : State) :
    (sortedKeys st).1.head? = some "language" ∧
    (sortedKeys st).1.tail.Sorted (· < ·) ∧
    (sortedKeys st).1.tail.Nodup ∧
    (∀ k, k ∈ (sortedKeys st).1.tail ↔ (k ∈ st.localization ∧ k ≠ "language")) ∧
    (saveLocalization (sortedKeys st).2 (sortedKeys st).1).map List.head? =
      (sortedKeys st).1.map some ∧
    (saveLocalization (sortedKeys st).2 (sortedKeys st).1).map List.tail =
      (sortedKeys st).1.map (fun k => ((sortedKeys st).2.localization.lookup k).getD []) := by
  have hnd : (st.localization.erase languageKey).keys.Nodup := AList.keys_nodup _
  have hstrict := sortStrings_strict _ hnd
  refine ⟨rfl, hstrict, ?_, ?_, ?_, ?_⟩
  · exact (sortStrings_perm _).nodup_iff.mpr hnd
  · intro k
    show k ∈ sortStrings (st.localization.erase languageKey).keys ↔ _
    rw [(sortStrings_perm _).mem_iff, ← AList.mem_keys, AList.mem_erase]
    exact ⟨fun h => ⟨h.2, h.1⟩, fun h => ⟨h.2, h.1⟩⟩
  · simp [saveLocalization, Function.comp_def]
  · simp [saveLocalization, Function.comp_def]

/-- C5 (the code at a comment that follows an escaped quote): in the text
`NSString *s = @"a\"b"; // Localize(@"k")` the pattern takes `"a\"` for a whole
string literal and the text from the next quote up to the quote inside the
comment for another one, so `stripComments` removes nothing and the scan that
follows inserts the key `k` from the comment.  Without the escaped quote the
comment is removed and no key is inserted.  A `//` comment on a line ending
in carriage return and line feed is not removed either. -/
theorem stripComments_keeps_comment_after_escaped_quote :
    stripComments escapedQuoteSource = escapedQuoteSource ∧
    initState.localization.lookup "k" = none ∧
    (processSourceFile initState (some escapedQuoteSource)).localization.lookup "k" = some [] ∧
    stripComments plainQuoteSource = "NSString *s = @\"ab\"; \n" ∧
    (processSourceFile initState (some plainQuoteSource)).localization.keys = [] ∧
    stripComments crlfSource = crlfSource ∧
    (processSourceFile initState (some crlfSource)).localization.lookup "k" = some [] := by
  decide

/-- C6: with the function name `Localize`, the calls found in the text of the
extraction scenario have the keys `greeting` and `farewell`, in this order, and
nothing else; scanning the text inserts exactly these two keys into an empty
table, each with `languagesCount` empty cells, and in any state the scan is
the insertion of these two keys.  Stripping comments leaves the text as it is. -/
theorem extraction_yields_greeting_and_farewell :
    (findAllStringSubmatch (compileLocalizeRegexp "Localize") extractionSource).map
      (fun m => m.getD 1 "") = ["greeting", "farewell"] ∧
    stripComments extractionSource = extractionSource ∧
    (∀ st : State,
      processSourceFileContents { st with localizeFunctionFlag := "Localize" } extractionSource =
        processSourceFileKey
          (processSourceFileKey { st with localizeFunctionFlag := "Localize" } "greeting")
          "farewell") ∧
    (∀ (n : Nat) (k : String),
      k ∈ (processSourceFileContents { initState with languagesCount := n }
        extractionSource).localization ↔ (k = "greeting" ∨ k = "farewell")) ∧
    (∀ n : Nat,
      (processSourceFileContents { initState with languagesCount := n }
        extractionSource).localization.lookup "greeting" = some (List.replicate n "") ∧
      (processSourceFileContents { initState with languagesCount := n }
        extractionSource).localization.lookup "farewell" = some (List.replicate n "") ∧
      (processSourceFileContents { initState with languagesCount := n }
        extractionSource).localization.lookup "ignored-arg" = none) := by
  have hm : findAllStringSubmatch (compileLocalizeRegexp "Localize") extractionSource =
      [["Localize(@\"greeting\")", "greeting", ""],
       ["Localize(@\"farewell\", @\"ignored-arg\")", "farewell", "ignored-arg"]] := by
    decide
  have hscan : ∀ st : State,
      processSourceFileContents { st with localizeFunctionFlag := "Localize" } extractionSource =
        processSourceFileKey
          (processSourceFileKey { st with localizeFunctionFlag := "Localize" } "greeting")
          "farewell" := by
    intro st
    unfold processSourceFileContents
    rw [hm]
    rfl
  have hinit : ∀ n : Nat,
      (processSourceFileContents { initState with languagesCount := n }
        extractionSource).localization =
      ((∅ : Table).insert "greeting" (List.replicate n "")).insert "farewell"
        (List.replicate n "") := by
    intro n
    have h := hscan { initState with languagesCount := n }
    have e : ({ ({ initState with languagesCount := n } : State) with
        localizeFunctionFlag := "Localize" } : State) = { initState with languagesCount := n } := rfl
    rw [e] at h
    rw [h]
    have h₁ : processSourceFileKey { initState with languagesCount := n } "greeting" =
        { initState with
          languagesCount := n,
          localization := (∅ : Table).insert "greeting" (List.replicate n "") } :=
      processSourceFileKey_of_none _ _ rfl
    rw [h₁]
    have h₂ := processSourceFileKey_of_none
      ({ initState with
          languagesCount := n,
          localization := (∅ : Table).insert "greeting" (List.replicate n "") } : State)
      "farewell" (by
        show AList.lookup "farewell" ((∅ : Table).insert "greeting" (List.replicate n "")) = none
        rw [AList.lookup_insert_ne (by decide)]
        rfl)
    rw [h₂]
  refine ⟨by rw [hm]; rfl, by decide, hscan, ?_, ?_⟩
  · intro n k
    rw [hinit n, AList.mem_insert, AList.mem_insert]
    constructor
    · rintro (h | h | h)
      · exact Or.inr h
      · exact Or.inl h
      · exact absurd h (AList.not_mem_empty k)
    · rintro (h | h)
      · exact Or.inr (Or.inl h)
      · exact Or.inl h
  · intro n
    rw [hinit n]
    refine ⟨?_, ?_, ?_⟩
    · rw [AList.lookup_insert_ne (by decide), AList.lookup_insert]
    · rw [AList.lookup_insert]
    · rw [AList.lookup_insert_ne (by decide), AList.lookup_insert_ne (by decide)]
      rfl

/-- C7 (the code in the state of the conversion mode): the loop of
`processStringFileContents` is the writing of the accepted pairs of the text,
in order, with their number as the count, and the entry
`"title" = "Hi \"there\"";` has the one accepted pair `title`, `Hi "there"`;
pairs with an empty key or value are dropped and not counted.  But `main`
calls the function with `languagesCount = 0`, and there
`processStringsFileKeyValue` makes a row without cells for a new key and the
assignment to its element panics: on the entry the function returns neither a
table nor a count, and the run over a directory that holds the file is
aborted.  With the language `en` known and walked, the same entry gives the
row `Hi "there"` and the count 1. -/
theorem processStringFileContents_panics_on_first_accepted_pair :
    (∀ (st : State) (fileContents : String),
      processStringFileContents st fileContents =
        (writePairs st (acceptedPairs fileContents)).map
          (fun s => (s, (acceptedPairs fileContents).length))) ∧
    unescapeLocalizedString "Hi \\\"there\\\"" = "Hi \"there\"" ∧
    unescapeLocalizedString "it\\'s" = "it's" ∧
    acceptedPairs titleEntry = [("title", "Hi \"there\"")] ∧
    (processStringFileContents initState "\"a\" = \"\";\n\"\" = \"b\";\n").map
      (fun r => (r.1.localization.keys, r.2)) = some ([], 0) ∧
    (∀ (st : State) (key value : String),
      processStringsFileKeyValue { st with localization := ∅, languagesCount := 0 }
        key value = none) ∧
    (initState.languagesCount, initState.stringsWalkCurrentLanguageIndex) = (0, 0) ∧
    (processStringFileContents initState titleEntry).isNone = true ∧
    (main true none [] [(⟨"Localizable.strings", false⟩, some titleEntry)]).isNone = true ∧
    (processStringFileContents englishState titleEntry).map
      (fun r => (r.1.localization.lookup "title", r.2)) = some (some ["Hi \"there\""], 1) := by
  have hmain : ∀ (st : State) (fileContents : String),
      processStringFileContents st fileContents =
        (writePairs st (acceptedPairs fileContents)).map
          (fun s => (s, (acceptedPairs fileContents).length)) := by
    intro st fileContents
    have hlen : ∀ m ∈ findAllStringSubmatchIndex stringsRegexp fileContents, m.length = 6 := by
      intro m hm
      exact allMatches_length stringsRegexp _ _ _ _ m hm
    unfold processStringFileContents acceptedPairs
    rw [processStringFileMatches_eq fileContents.data _ st 0 hlen]
    simp
  have hpanic : ∀ (st : State) (key value : String),
      processStringsFileKeyValue { st with localization := ∅, languagesCount := 0 }
        key value = none := by
    intro st key value
    have hl : (∅ : Table).lookup key = none := rfl
    unfold processStringsFileKeyValue
    simp only [hl, AList.lookup_insert, Option.getD_some, makeRow, List.replicate_zero,
      List.length_nil, Nat.not_lt_zero, and_false, if_false]
  exact ⟨hmain, by decide, by decide, by decide, by decide, hpanic, by decide, by decide,
    by decide, by decide⟩

/-- C8 (the code at the languages `en`, `en-GB`): `stringsLanguagesWalkFunc`
takes the directories `en-GB.lproj` and `en.lproj` for the two languages
`en`, `en-GB`, comparing the name without its extension by equality.
`stringsWalkFunc` compares by prefix: whenever the first language of the list
is a prefix of the directory name the walked index is 0, so with the
duplicate-free list `en`, `en-GB`, where `en-GB` stands at position 1, the
directory `en-GB.lproj` gets the index 0 and the pair `title`, `Hi` of a file
in it lands in the column of `en`.  In a run of `main` no language is ever
known: the directory `en.lproj` gets the index `-1`, its file with the entry
`"title" = "Hi \"there\"";` is not parsed and the only row saved is `language`.
A directory `fr.lproj` beside the languages `en`, `ru` is skipped, as is its
file. -/
theorem stringsWalkFunc_prefix_language_wins :
    (findAllStringsLanguages initState
      [⟨"res", true⟩, ⟨"en-GB.lproj", true⟩, ⟨"Localizable.strings", false⟩,
       ⟨"en.lproj", true⟩]).languages = ["en", "en-GB"] ∧
    prefixLanguagesState.languages.Nodup ∧
    prefixLanguagesState.languages.indexOf "en-GB" = 1 ∧
    (∀ (st : State) (M rest : String) (more : List String),
      stringsWalkFunc { st with languages := M :: more } ⟨M ++ rest ++ ".lproj", true⟩ none =
        some { st with languages := M :: more, stringsWalkCurrentLanguageIndex := 0 }) ∧
    (stringsWalkFunc prefixLanguagesState ⟨"en-GB.lproj", true⟩ none).map
      (fun s => s.stringsWalkCurrentLanguageIndex) = some 0 ∧
    ((stringsWalkFunc prefixLanguagesState ⟨"en-GB.lproj", true⟩ none).bind
      (fun s => stringsWalkFunc s ⟨"Localizable.strings", false⟩
        (some "\"title\" = \"Hi\";\n"))).map
      (fun s => s.localization.lookup "title") = some (some ["Hi", ""]) ∧
    ¬ ((((stringsWalkFunc prefixLanguagesState ⟨"en-GB.lproj", true⟩ none).bind
      (fun s => processStringsFileKeyValue s "title" "Hi")).bind
      (fun s => s.localization.lookup "title")).bind
      (fun row => row[1]?) = some "Hi") ∧
    (main true none []
      [(⟨"res", true⟩, none), (⟨"en.lproj", true⟩, none),
       (⟨"Localizable.strings", false⟩, some titleEntry)]).map (fun o => o.rows) =
      some [["language"]] ∧
    ((stringsWalkFunc twoLanguageWalkState ⟨"fr.lproj", true⟩ none).bind
      (fun s => stringsWalkFunc s ⟨"Localizable.strings", false⟩ (some titleEntry))).map
      (fun s => (s.stringsWalkCurrentLanguageIndex, s.localization.keys)) =
      some (-1, []) := by
  have hfirst : ∀ (st : State) (M rest : String) (more : List String),
      stringsWalkFunc { st with languages := M :: more } ⟨M ++ rest ++ ".lproj", true⟩ none =
        some { st with languages := M :: more, stringsWalkCurrentLanguageIndex := 0 } := by
    intro st M rest more
    have hp : stringsHasPrefix (M ++ rest ++ ".lproj") M = true := by
      rw [String.append_assoc]
      exact stringsHasPrefix_append M (rest ++ ".lproj")
    simp [stringsWalkFunc, filepathExt_lproj, findLanguageIndex, hp]
  exact ⟨by decide, by decide, by decide, hfirst, by decide, by decide, by decide, by decide,
    by decide⟩

/-- C9 (the code at a first run): `checkLocalization` compares the length of a
row with `languagesCount + 1`, not with the length of the language list: the
body of its loop emits a count diagnostic exactly when the two differ.  On a
first run, after scanning one call, the language list is empty and the row of
the scanned key is empty as well, yet a "less translations (0) than languages
specified (0)" diagnostic is emitted for the key, and one for `language`. -/
theorem checkLocalization_compares_with_count_plus_one :
    (∀ (st : State) (i : Nat) (key : String),
      (∃ d ∈ checkKey st i key, d.isCount = true) ↔
        ((st.localization.lookup key).getD []).length ≠ st.languagesCount + 1) ∧
    firstRunScanned.languages = [] ∧
    firstRunScanned.languagesCount = 0 ∧
    (sortedKeys firstRunScanned).2.localization.lookup "hello" = some [] ∧
    (sortedKeys firstRunScanned).2.localization.lookup "language" = some [] ∧
    checkLocalization (sortedKeys firstRunScanned).2 (sortedKeys firstRunScanned).1 =
      [Diagnostic.lessTranslations 1 "language" 0 0,
       Diagnostic.lessTranslations 2 "hello" 0 0] :=
  ⟨checkKey_count_iff, by decide, by decide, by decide, by decide, by decide⟩

/-- Counterexample to C10 as stated: after loading a file whose language row
is `language,,ru`, `checkLocalization` on the list of `sortedKeys` emits a
missing-translation diagnostic whose key is `language`. -/
theorem checkLocalization_reports_language_key :
    emptyNameLoaded.map (fun st =>
      checkLocalization (sortedKeys st).2 (sortedKeys st).1) =
      some [Diagnostic.missingTranslations 1 "language" ["ru"]] ∧
    ¬ (∀ d ∈ (emptyNameLoaded.map (fun st =>
        checkLocalization (sortedKeys st).2 (sortedKeys st).1)).getD [],
      d.key ≠ "language") := by
  decide

/-- C10 (amended): the reserved key is not excluded from the iteration.  On
the list of `sortedKeys`, `checkLocalization` first checks the row of `language`
as row 1, like the row of any key, and then the other keys, none of whose
diagnostics has the key `language`.  It emits a missing-translation diagnostic
whose key is `language` exactly when a cell of the language row, at a position
below the length of the language list, is empty. -/
theorem checkLocalization_checks_language_row (st : State) :
    checkLocalization (sortedKeys st).2 (sortedKeys st).1 =
      checkKey (sortedKeys st).2 0 "language" ++
        checkKeysFrom (sortedKeys st).2 1 (sortedKeys st).1.tail ∧
    (∀ d ∈ checkKeysFrom (sortedKeys st).2 1 (sortedKeys st).1.tail, d.key ≠ "language") ∧
    ((∃ d ∈ checkLocalization (sortedKeys st).2 (sortedKeys st).1,
        d.key = "language" ∧ d.isCount = false) ↔
      ∃ i, i < st.languages.length ∧
        ((st.localization.lookup "language").getD st.languages)[i]? = some "") := by
  have hsplit : checkLocalization (sortedKeys st).2 (sortedKeys st).1 =
      checkKey (sortedKeys st).2 0 "language" ++
        checkKeysFrom (sortedKeys st).2 1 (sortedKeys st).1.tail := rfl
  have htail : ∀ d ∈ checkKeysFrom (sortedKeys st).2 1 (sortedKeys st).1.tail,
      d.key ≠ "language" := by
    intro d hd e
    have hmem := checkKeysFrom_key (sortedKeys st).2 _ 1 d hd
    rw [e] at hmem
    have hmem' : "language" ∈ sortStrings (st.localization.erase languageKey).keys := hmem
    rw [(sortStrings_perm _).mem_iff, ← AList.mem_keys, AList.mem_erase] at hmem'
    exact hmem'.1 rfl
  have hrow : ((sortedKeys st).2.localization.lookup "language").getD [] =
      (st.localization.lookup "language").getD st.languages := by
    have h := sortedKeys_lookup_language st
    have h' : (sortedKeys st).2.localization.lookup "language" =
        some ((st.localization.lookup "language").getD st.languages) := h
    rw [h']
    rfl
  have hmissing := checkKey_missing_iff (sortedKeys st).2 0 "language"
  rw [hrow] at hmissing
  have hlangs : (sortedKeys st).2.languages = st.languages := rfl
  rw [hlangs, missingTranslationsFrom_ne_nil_iff] at hmissing
  refine ⟨hsplit, htail, ?_⟩
  constructor
  · rintro ⟨d, hd, hkey, hcount⟩
    rw [hsplit, List.mem_append] at hd
    rcases hd with hd | hd
    · have := hmissing.mp ⟨d, hd, hcount⟩
      simpa using this
    · exact absurd hkey (htail d hd)
  · intro h
    have h' : ∃ j, j < st.languages.length ∧
        ((st.localization.lookup "language").getD st.languages)[0 + j]? = some "" := by
      simpa using h
    obtain ⟨d, hd, hcount⟩ := hmissing.mpr h'
    refine ⟨d, ?_, checkKey_key _ _ _ d hd, hcount⟩
    rw [hsplit]
    exact List.mem_append_left _ hd

/-- Witness of C10 (amended) on a first run after scanning one call: the
diagnostic for `hello` stands after those of `language` and has another key,
and no missing-translation diagnostic is emitted for `language`, the language
list being empty. -/
theorem checkLocalization_checks_language_row_witness :
    Diagnostic.lessTranslations 2 "hello" 0 0 ∈
      checkKeysFrom (sortedKeys firstRunScanned).2 1 (sortedKeys firstRunScanned).1.tail ∧
    (Diagnostic.lessTranslations 2 "hello" 0 0).key ≠ "language" ∧
    ¬ ∃ d ∈ checkLocalization (sortedKeys firstRunScanned).2 (sortedKeys firstRunScanned).1,
        d.key = "language" ∧ d.isCount = false :=
  have hmem : Diagnostic.lessTranslations 2 "hello" 0 0 ∈
      checkKeysFrom (sortedKeys firstRunScanned).2 1 (sortedKeys firstRunScanned).1.tail := by
    decide
  ⟨hmem,
   (checkLocalization_checks_language_row firstRunScanned).2.1 _ hmem,
   fun h => by
    obtain ⟨i, hi, _⟩ := (checkLocalization_checks_language_row firstRunScanned).2.2.mp h
    have hlen : firstRunScanned.languages.length = 0 := by decide
    omega⟩

/-- C11 (the code at the record `language` alone): `loadLocalization` is
aborted by the slice expression `languagesValues[1:]` when the row of
`language` has no cell, for every starting state, and `main` with it.  In
general the load is aborted exactly when the reading loop ends without a read
error and leaves the reserved key bound to an empty row.  A record with zero
cells after another key is accepted with an empty row. -/
theorem loadLocalization_panics_on_bare_language_row :
    (∀ st : State, loadLocalization st (some [.record ["language"]]) = none) ∧
    (∀ (st : State) (reads : List ReadResult),
      loadLocalization st (some reads) = none ↔
        ((loadRecords st.localization reads).2 = true ∧
         (loadRecords st.localization reads).1.lookup languageKey = some [])) ∧
    (loadLocalization initState
        (some [.record ["language", "en"], .record ["greeting"]])).map
      (fun s => (s.localization.lookup "greeting", s.languages)) = some (some [], []) ∧
    (loadLocalization initState (some (readRows [["greeting"], ["hello"]]))).map
      (fun s => (s.localization.lookup "greeting", s.localization.lookup "hello")) =
      some (some [], some []) ∧
    (main false (some [.record ["language"]]) [] []).isNone = true := by
  have hiff : ∀ (st : State) (reads : List ReadResult),
      loadLocalization st (some reads) = none ↔
        ((loadRecords st.localization reads).2 = true ∧
         (loadRecords st.localization reads).1.lookup languageKey = some []) := by
    intro st reads
    unfold loadLocalization
    rcases hlr : loadRecords st.localization reads with ⟨localization, ok⟩
    cases ok with
    | false => simp [hlr]
    | true =>
      cases hl : localization.lookup languageKey with
      | none => simp [hlr, hl]
      | some row =>
        cases row with
        | nil => simp [hlr, hl]
        | cons first rest => simp [hlr, hl]
  refine ⟨?_, hiff, by decide, by decide, by decide⟩
  intro st
  rw [hiff]
  constructor
  · rfl
  · show (AList.insert languageKey [] st.localization).lookup languageKey = some []
    rw [AList.lookup_insert]

/-- C12 (the code at a first run followed by a second run): with no persisted
file and one source file with one call, the run saves the rows `language` and
`hello`, each a key without cells; the second run reads these two records
back, scans nothing, and is aborted in `loadLocalization` by the slice of the
empty language row, so it saves nothing.  In the merge scenario the run saves
`language,en,ru`, `goodbye,` and `greeting,Hello,Привет`; the reader answers the
second row, which has two fields, with an error, the load returns there, and
the second run saves the row `language,en,ru` alone. -/
theorem second_run_does_not_reproduce_first_run :
    (main false none firstRunSources []).map (fun o => o.rows) = some firstRunRows ∧
    readRows firstRunRows = [.record ["language"], .record ["hello"]] ∧
    (main false (some (readRows firstRunRows)) [] []).map (fun o => o.rows) = none ∧
    (main false (some mergeRecords) [some mergeSource] []).map (fun o => o.rows) =
      some mergeRows ∧
    readRows mergeRows =
      [.record ["language", "en", "ru"], .error, .record ["greeting", "Hello", "Привет"]] ∧
    (main false (some (readRows mergeRows)) [] []).map (fun o => o.rows) =
      some [["language", "en", "ru"]] := by
  decide

end ZZLocalize
